import Mathlib

/-!
Verification of the Swarm-library-tutorials repository against its
natural-language specification.

The repository's own Python sources (under `swarm_examples_general/` and
`swarm_examples_customer_service/`) are example scripts that drive the Swarm
agent-orchestration runtime.  The runtime itself (run loop, tool executor,
context merging, handoff resolution, stream assembly) is not part of the
repository's sources, so it is modelled here from the specification text
(definitions marked `Modelled from the spec:`).  The tool functions that the
examples define (`update_preferences`, `add_to_cart`, `create_order`,
`with_retry`, ...) are shallow embeddings of the Python code itself.
-/

namespace SwarmSpec

/-! ### Association-list primitives

Python dictionaries preserve insertion order; assignment `d[k] = v` replaces
the value in place when `k` is present and appends a new entry otherwise.
`alSet` models that operation exactly.  `List.lookup` models `d[k]` /
`d.get(k)` reads (first occurrence wins; our lists hold at most one entry per
key whenever they model a Python dict built by `alSet`). -/

/-- Python dict assignment `d[k] = v`: replace in place if the key is present,
append otherwise. -/
def alSet (k : String) (v : α) : List (String × α) → List (String × α)
  | [] => [(k, v)]
  | (k', v') :: rest => if k' == k then (k', v) :: rest else (k', v') :: alSet k v rest

/-- Python dict assignment for `Nat` keys (used by the `ORDERS` store). -/
def natSet (k : Nat) (v : α) : List (Nat × α) → List (Nat × α)
  | [] => [(k, v)]
  | (k', v') :: rest => if k' == k then (k', v) :: rest else (k', v') :: natSet k v rest

/-! ### Orchestration data model

Modelled from the spec: §3 DATA MODEL.  The runtime that the examples exercise
is not part of the repository's sources; every definition in this section is
taken from the specification's words. -/

/-- Modelled from the spec: a Context is a mapping from string key to value,
exchanged by value-semantics deltas (§3).  We represent it as a list of
bindings where the most recent binding of a key wins on lookup. -/
abbrev Ctx := List (String × String)

/-- Modelled from the spec: writing one key of the Context.  The new binding
shadows any earlier binding of the same key. -/
def ctxSet (k v : String) (ctx : Ctx) : Ctx := (k, v) :: ctx

/-- Modelled from the spec: reading one key of the Context. -/
def ctxGet (k : String) (ctx : Ctx) : Option String :=
  (ctx.find? (fun p => p.1 == k)).map (·.2)

/-- Modelled from the spec: a ToolCall is an opaque id, a tool name and an
argument mapping (§3). -/
structure ToolCall where
  id : String
  name : String
  args : List (String × String)
deriving DecidableEq, Repr

/-- Agents are referenced by name when a tool requests a handoff; the run
entrypoint receives an environment resolving references to Agents. -/
abbrev AgentRef := String

/-- Modelled from the spec: a ToolResult is a textual payload, an optional
Context delta and an optional Agent reference signalling a handoff (§3). -/
structure ToolResult where
  value : String
  contextDelta : List (String × String)
  agentHandoff : Option AgentRef
deriving DecidableEq, Repr

/-- Modelled from the spec: a registered tool records its name, declared
parameter names, the two capability bits `wantsContext` / `producesHandoff`,
and the wrapped callable.  A tool may fail (raise); the executor, not the
tool, converts the failure into a textual ToolResult (§4.2). -/
structure ToolSpec where
  name : String
  params : List String
  wantsContext : Bool
  producesHandoff : Bool
  fn : Ctx → List (String × String) → Except String ToolResult

/-- Modelled from the spec: an Agent is a name, a model identifier, an
instruction resolver (a pure function of the Context; a fixed string is a
constant function), an ordered set of ToolSpecs and a flag enabling
concurrent tool execution (§3). -/
structure Agent where
  name : String
  model : String
  instructions : Ctx → String
  tools : List ToolSpec
  parallelToolCalls : Bool

/-- Message roles (§3). -/
inductive Role where
  | user
  | assistant
  | tool
deriving DecidableEq, Repr

/-- Modelled from the spec: a Message is a role, nullable content, the sender
name, tool-call references, and (for tool-role messages) the id of the
ToolCall it resolves (§3, §4.5 MERGING). -/
structure Message where
  role : Role
  content : Option String
  sender : String
  toolCalls : List ToolCall
  toolCallId : Option String
deriving DecidableEq, Repr

/-- Terminal conditions of a run (§4.5, §7). -/
inductive RunTermination where
  | done
  | maxTurnsExceeded
  | handoffLoopExceeded
deriving DecidableEq, Repr

/-- Modelled from the spec: a RunResult carries the newly produced Messages,
the final active Agent, the merged Context (§3), the terminal condition
(§4.5/§7) and the handoff count the run tracked for diagnostics (§4.4). -/
structure RunResult where
  messages : List Message
  finalAgent : Agent
  context : Ctx
  termination : RunTermination
  handoffs : Nat

/-- Modelled from the spec: the shape of one completion response — an
assistant message's content together with the tool calls it carries (§6). -/
structure Resp where
  content : String
  toolCalls : List ToolCall
deriving DecidableEq, Repr

/-- Modelled from the spec: the Completion Client contract
`complete(model, systemInstructions, messages, toolSchemas)` (§6).  A
deterministic client is a pure function of these four arguments. -/
abbrev CompletionClient :=
  String → String → List Message → List (String × List String) → Resp

/-- The tool schemas advertised to the model: name and declared parameter
names of each registered tool (§4.2). -/
def schemas (tools : List ToolSpec) : List (String × List String) :=
  tools.map (fun t => (t.name, t.params))

/-- Modelled from the spec: run configuration — the per-run turn maximum
(§4.5) and the handoff maximum (§4.4). -/
structure RunConfig where
  maxTurns : Nat
  maxHandoffs : Nat

/-! ### Tool Executor

Modelled from the spec: §4.2 invocation contract and §4.3 batch execution. -/

/-- Modelled from the spec: argument validation — every declared parameter
must be supplied (§4.2). -/
def validateArgs (t : ToolSpec) (args : List (String × String)) : Bool :=
  t.params.all (fun p => (args.lookup p).isSome)

/-- Modelled from the spec: invoking one ToolCall against an agent's
registry.  Unknown tool names (§6), argument-validation failures and tool
errors (§4.2) all produce a ToolResult carrying a textual error payload;
nothing escapes the executor. -/
def execCall (agent : Agent) (ctx : Ctx) (c : ToolCall) : ToolResult :=
  match agent.tools.find? (fun t => t.name == c.name) with
  | none =>
      { value := "Error: tool " ++ c.name ++ " not found.",
        contextDelta := [], agentHandoff := none }
  | some t =>
      if validateArgs t c.args then
        match t.fn ctx c.args with
        | .ok r => r
        | .error e =>
            { value := "Error: " ++ e, contextDelta := [], agentHandoff := none }
      else
        { value := "Error: invalid arguments for tool " ++ t.name ++ ".",
          contextDelta := [], agentHandoff := none }

/-- Modelled from the spec: serial batch execution in call order (§4.3).
Every call receives the same read-only snapshot of the Context (§5). -/
def executeBatchSeq (agent : Agent) (ctx : Ctx) (calls : List ToolCall) :
    List ToolResult :=
  calls.map (execCall agent ctx)

/-- Modelled from the spec: the completed concurrent tasks of a batch, in the
order the scheduler finished them.  `order` lists call indices by completion
time; each task computes its result from the shared read-only snapshot. -/
def completedPar (agent : Agent) (ctx : Ctx) (calls : List ToolCall)
    (order : List Nat) : List (Nat × ToolResult) :=
  order.filterMap (fun i => (calls.get? i).map (fun c => (i, execCall agent ctx c)))

/-- Modelled from the spec: parallel batch execution (§4.3, §5).  All tasks of
the batch run concurrently (completion order `order`); the Run Loop waits for
the whole batch and gathers the results back into original call order. -/
def executeBatchPar (agent : Agent) (ctx : Ctx) (calls : List ToolCall)
    (order : List Nat) : List ToolResult :=
  (List.range calls.length).filterMap
    (fun j => ((completedPar agent ctx calls order).find? (fun p => p.1 == j)).map (·.2))

/-- Modelled from the spec: batch dispatch — concurrent when the active Agent
enables parallel execution, serial in call order otherwise (§4.3). -/
def executeBatch (agent : Agent) (ctx : Ctx) (calls : List ToolCall)
    (order : List Nat) : List ToolResult :=
  if agent.parallelToolCalls then executeBatchPar agent ctx calls order
  else executeBatchSeq agent ctx calls

/-- A completion order is valid for a batch when every call of the batch
eventually completes (§5: the Run Loop waits for all tasks). -/
def ValidOrder (order : List Nat) (n : Nat) : Prop :=
  ∀ j, j < n → j ∈ order

/-! ### Context merging

Modelled from the spec: §4.3 — deltas of one batch are merged
last-registered-key-wins, ordered by the fixed call order. -/

/-- Modelled from the spec: merging one Context delta, entry by entry; a later
entry of the delta shadows an earlier one (§4.3). -/
def mergeDelta (ctx : Ctx) (delta : List (String × String)) : Ctx :=
  delta.foldl (fun c p => ctxSet p.1 p.2 c) ctx

/-- Modelled from the spec: merging the deltas of a whole batch in call order
(§4.3). -/
def mergeDeltas (ctx : Ctx) (deltas : List (List (String × String))) : Ctx :=
  deltas.foldl mergeDelta ctx

/-- The last binding of key `k` in a flat list of delta entries (the value the
last-registered-key-wins rule selects). -/
def lastBinding (k : String) (l : List (String × String)) : Option String :=
  (l.reverse.find? (fun p => p.1 == k)).map (·.2)

/-! ### Run Loop

Modelled from the spec: §4.4 Handoff Resolver and §4.5 the turn state
machine. -/

/-- The state the Run Loop threads from turn to turn: the active Agent
(§4.4), the full message history, the Context, the messages produced since
call start, the handoff counter (§4.4) and the turn index (used to select the
completion order the scheduler happens to produce for that turn's batch). -/
structure RunState where
  agent : Agent
  history : List Message
  ctx : Ctx
  newMsgs : List Message
  handoffs : Nat
  turn : Nat

/-- The outcome of one turn: continue with a new state, or finish. -/
inductive StepOut where
  | next (st : RunState)
  | finished (r : RunResult)

/-- The assistant Message materialized from one completion response (§4.5
`AWAITING_MODEL`). -/
def mkAssistantMessage (agent : Agent) (resp : Resp) : Message :=
  { role := .assistant, content := some resp.content, sender := agent.name,
    toolCalls := resp.toolCalls, toolCallId := none }

/-- Modelled from the spec: one tool-role Message per ToolResult, correlated
by ToolCall id (§4.5 MERGING). -/
def mkToolMessage (agent : Agent) (c : ToolCall) (r : ToolResult) : Message :=
  { role := .tool, content := some r.value, sender := agent.name,
    toolCalls := [], toolCallId := some c.id }

/-- The tool-role Messages appended after a batch, in original call order
(§4.5, §5 ordering guarantees). -/
def batchMessages (agent : Agent) (calls : List ToolCall)
    (results : List ToolResult) : List Message :=
  (calls.zip results).map (fun p => mkToolMessage agent p.1 p.2)

/-- Modelled from the spec: handoff precedence — the last ToolResult in call
order that carries an Agent reference wins (§4.3). -/
def lastHandoff (results : List ToolResult) : Option AgentRef :=
  (results.filterMap (·.agentHandoff)).getLast?

/-- Querying the Completion Client for the current state: resolved
instructions, full history, advertised schemas, model id (§4.5
`AWAITING_MODEL`, §4.1). -/
def respond (client : CompletionClient) (st : RunState) : Resp :=
  client st.agent.model (st.agent.instructions st.ctx) st.history
    (schemas st.agent.tools)

/-- Modelled from the spec: the body of one turn given the (assembled)
completion response — the `HAS_TOOL_CALLS`/`EXECUTING_TOOLS`/`MERGING`
branching of §4.5, with §4.3 merging, §4.4 handoff resolution and loop
protection. -/
def stepWithResp (env : AgentRef → Agent) (cfg : RunConfig)
    (sched : Nat → List Nat) (st : RunState) (resp : Resp) : StepOut :=
  let amsg := mkAssistantMessage st.agent resp
  if resp.toolCalls.isEmpty then
    .finished { messages := st.newMsgs ++ [amsg], finalAgent := st.agent,
                context := st.ctx, termination := .done, handoffs := st.handoffs }
  else
    let results := executeBatch st.agent st.ctx resp.toolCalls (sched st.turn)
    let toolMsgs := batchMessages st.agent resp.toolCalls results
    let ctx' := mergeDeltas st.ctx (results.map (·.contextDelta))
    let newMsgs' := st.newMsgs ++ [amsg] ++ toolMsgs
    let hist' := st.history ++ [amsg] ++ toolMsgs
    match lastHandoff results with
    | some ref =>
        if cfg.maxHandoffs < st.handoffs + 1 then
          .finished { messages := newMsgs', finalAgent := env ref, context := ctx',
                      termination := .handoffLoopExceeded, handoffs := st.handoffs + 1 }
        else
          .next { agent := env ref, history := hist', ctx := ctx',
                  newMsgs := newMsgs', handoffs := st.handoffs + 1, turn := st.turn + 1 }
    | none =>
        .next { agent := st.agent, history := hist', ctx := ctx',
                newMsgs := newMsgs', handoffs := st.handoffs, turn := st.turn + 1 }

/-- The RunResult produced when the turn budget is exhausted (§4.5): the
accumulated messages are returned, never dropped. -/
def mkMaxTurnsResult (st : RunState) : RunResult :=
  { messages := st.newMsgs, finalAgent := st.agent, context := st.ctx,
    termination := .maxTurnsExceeded, handoffs := st.handoffs }

/-- Modelled from the spec: the blocking Run Loop (§4.5), iterating turns
until `DONE`, `HandoffLoopExceeded` or `MaxTurnsExceeded`. -/
def runLoop (env : AgentRef → Agent) (client : CompletionClient)
    (cfg : RunConfig) (sched : Nat → List Nat) :
    Nat → RunState → RunResult
  | 0, st => mkMaxTurnsResult st
  | fuel + 1, st =>
      match stepWithResp env cfg sched st (respond client st) with
      | .finished r => r
      | .next st' => runLoop env client cfg sched fuel st'

/-- Modelled from the spec: the blocking run entrypoint (§6). -/
def runBlocking (env : AgentRef → Agent) (client : CompletionClient)
    (cfg : RunConfig) (sched : Nat → List Nat) (agent : Agent)
    (history : List Message) (ctx : Ctx) : RunResult :=
  runLoop env client cfg sched cfg.maxTurns
    { agent := agent, history := history, ctx := ctx, newMsgs := [],
      handoffs := 0, turn := 0 }

/-! ### Stream Assembler

Modelled from the spec: §4.6 — the same state machine, but each turn's
response arrives as content-delta and tool-call-delta chunks which the
assembler reassembles before performing the identical branching. -/

/-- Modelled from the spec: a StreamChunk is a content delta, a tool-call
delta or the final RunResult (§3). -/
inductive StreamChunk where
  | contentDelta (s : String)
  | toolCallDelta (c : ToolCall)
  | final (r : RunResult)

/-- Whether a chunk is the `{final}` chunk. -/
def StreamChunk.isFinal : StreamChunk → Bool
  | .final _ => true
  | _ => false

/-- Concatenating the pieces a chunker split a content string into. -/
def joinChunks (l : List String) : String := l.foldl (· ++ ·) ""

/-- Modelled from the spec: the incremental form of one completion response —
content tokens as they arrive, then the tool-call deltas (§4.6). -/
def turnChunks (chunker : String → List String) (r : Resp) : List StreamChunk :=
  (chunker r.content).map .contentDelta ++ r.toolCalls.map .toolCallDelta

/-- Modelled from the spec: how the assembler folds one incoming chunk into
the partially accumulated response (§4.6). -/
def assembleStep (acc : Resp) : StreamChunk → Resp
  | .contentDelta s => { acc with content := acc.content ++ s }
  | .toolCallDelta t => { acc with toolCalls := acc.toolCalls ++ [t] }
  | .final _ => acc

/-- Modelled from the spec: the assembler accumulates content deltas and
tool-call deltas back into the structurally complete response (§4.6). -/
def assembleResp (cs : List StreamChunk) : Resp :=
  cs.foldl assembleStep { content := "", toolCalls := [] }

/-- Modelled from the spec: the streaming Run Loop (§4.6) — forwards each
turn's chunks, reassembles the response, branches exactly as the blocking
loop does, and terminates with one `{final}` chunk. -/
def runStreamLoop (env : AgentRef → Agent) (client : CompletionClient)
    (cfg : RunConfig) (sched : Nat → List Nat)
    (chunker : String → List String) :
    Nat → RunState → List StreamChunk
  | 0, st => [.final (mkMaxTurnsResult st)]
  | fuel + 1, st =>
      let tc := turnChunks chunker (respond client st)
      match stepWithResp env cfg sched st (assembleResp tc) with
      | .finished r => tc ++ [.final r]
      | .next st' => tc ++ runStreamLoop env client cfg sched chunker fuel st'

/-- Modelled from the spec: the streaming run entrypoint (§6). -/
def runStream (env : AgentRef → Agent) (client : CompletionClient)
    (cfg : RunConfig) (sched : Nat → List Nat)
    (chunker : String → List String) (agent : Agent)
    (history : List Message) (ctx : Ctx) : List StreamChunk :=
  runStreamLoop env client cfg sched chunker cfg.maxTurns
    { agent := agent, history := history, ctx := ctx, newMsgs := [],
      handoffs := 0, turn := 0 }

/-- The Agents under which the Run Loop issues its successive model calls
starting from a given state: one entry per turn actually taken (§4.4
`activeAgent`, §4.5 `AWAITING_MODEL`).  This is the observation needed to
speak about "the active agent for all subsequent turns of the run". -/
def turnAgents (env : AgentRef → Agent) (client : CompletionClient)
    (cfg : RunConfig) (sched : Nat → List Nat) :
    Nat → RunState → List Agent
  | 0, _ => []
  | fuel + 1, st =>
      st.agent ::
        (match stepWithResp env cfg sched st (respond client st) with
         | .finished _ => []
         | .next st' => turnAgents env client cfg sched fuel st')

/-! ### Embeddings of the repository's tool functions -/

/-- Embeds `update_preferences` from
`swarm_examples_customer_service/03_context_variables.py`: the Python body is
`context_variables[preference_type] = value` followed by returning a
confirmation string.  The in-place dict assignment is made explicit by
returning the caller-visible post-state of the mapping next to the return
string.  (The `try/except` wrapper of the original cannot fire: dict
assignment with string keys does not raise.) -/
def update_preferences (context_variables : List (String × String))
    (preference_type value : String) : List (String × String) × String :=
  (alSet preference_type value context_variables,
   "Updated " ++ preference_type ++ " to: " ++ value)

/-- Python's `str.lower()` on the ASCII product names used in the examples,
embedded character by character. -/
def pyLower (s : String) : String := String.mk (s.data.map Char.toLower)

/-- The product catalog `PRODUCTS` of
`swarm_examples_general/03_context_variables.py` (name → price); only key
membership matters to `add_to_cart`. -/
def PRODUCTS3 : List (String × Rat) :=
  [("laptop", 99999 / 100), ("phone", 59999 / 100), ("headphones", 9999 / 100),
   ("tablet", 29999 / 100), ("smartwatch", 19999 / 100)]

/-- The shopping-cart context of
`swarm_examples_general/03_context_variables.py`: its values are carts, i.e.
dicts from item name to quantity. -/
abbrev ShopCtx := List (String × List (String × Int))

/-- The `Result` value returned by the shopping-cart tools: a textual value
and a context delta whose values are carts. -/
structure CartResult where
  value : String
  context_variables : List (String × List (String × Int))
deriving DecidableEq, Repr

/-- Embeds `add_to_cart` from
`swarm_examples_general/03_context_variables.py`.  The Python body fetches
`cart = context_variables.get("cart", {})` — an alias of the dict stored in
the context when the key is present — and then assigns
`cart[item] = cart.get(item, 0) + quantity`, so the caller-visible context is
mutated in place exactly when the `cart` key was present; the function also
returns the (same) cart as a context delta.  The post-state of the
caller-visible mapping is returned next to the `Result`. -/
def add_to_cart (context_variables : ShopCtx) (item : String) (quantity : Int) :
    ShopCtx × CartResult :=
  if (PRODUCTS3.lookup (pyLower item)).isNone then
    (context_variables,
     { value := "Error: Product '" ++ item ++ "' not found in our catalog.",
       context_variables := [] })
  else
    let item' := pyLower item
    let cart := (context_variables.lookup "cart").getD []
    let cart' := alSet item' ((cart.lookup item').getD 0 + quantity) cart
    let cv' :=
      if (context_variables.lookup "cart").isSome then
        alSet "cart" cart' context_variables
      else context_variables
    (cv', { value := "Added " ++ toString quantity ++ " " ++ item' ++ "(s) to cart.",
            context_variables := [("cart", cart')] })

/-- A product row of the `PRODUCTS` store in
`swarm_examples_general/10_complex_multi_agent.py`. -/
structure Product where
  price : Rat
  stock : Int
  category : String
deriving DecidableEq, Repr

/-- An order row of the `ORDERS` store in
`swarm_examples_general/10_complex_multi_agent.py`. -/
structure Order where
  product : String
  quantity : Int
  total_price : Rat
  status : String
  customer_name : String
deriving DecidableEq, Repr

/-- The `Result` value returned by `create_order`: a textual value and a
context delta (here mapping `last_order_id` to an integer). -/
structure OrderResult where
  value : String
  context_variables : List (String × Int)
deriving DecidableEq, Repr

/-- The initial `PRODUCTS` store of
`swarm_examples_general/10_complex_multi_agent.py`. -/
def PRODUCTS10 : List (String × Product) :=
  [("laptop", ⟨99999 / 100, 50, "electronics"⟩),
   ("smartphone", ⟨59999 / 100, 100, "electronics"⟩),
   ("desk", ⟨29999 / 100, 30, "furniture"⟩),
   ("chair", ⟨19999 / 100, 45, "furniture"⟩)]

/-- Renders a rational with two decimals, standing in for Python's
`f"{x:.2f}"` on the repository's price values (whose denominators divide
100, so no rounding is involved). -/
def fmt2 (q : Rat) : String :=
  let cents : Int := (q * 100).floor
  let sign := if cents < 0 then "-" else ""
  let n := cents.natAbs
  sign ++ toString (n / 100) ++ "." ++
    (if n % 100 < 10 then "0" else "") ++ toString (n % 100)

/-- Embeds `create_order` from
`swarm_examples_general/10_complex_multi_agent.py` lines 55–90.  The global
`ORDERS` and `PRODUCTS` dicts it mutates are passed and returned explicitly;
`ORDERS[order_id] = ...` and `PRODUCTS[product_name]["stock"] -= quantity`
are Python dict assignments, embedded by `natSet` / `alSet`. -/
def create_order (context_variables : List (String × String))
    (orders : List (Nat × Order)) (products : List (String × Product))
    (product_name : String) (quantity : Int) :
    List (Nat × Order) × List (String × Product) × OrderResult :=
  match products.lookup product_name with
  | none =>
      (orders, products,
       { value := "Product '" ++ product_name ++ "' not found.",
         context_variables := [] })
  | some product =>
      if quantity ≤ 0 then
        (orders, products,
         { value := "Quantity must be positive.", context_variables := [] })
      else if product.stock < quantity then
        (orders, products,
         { value := "Insufficient stock. Only " ++ toString product.stock ++
             " units available.",
           context_variables := [] })
      else
        let order_id := orders.length + 1
        let total_price := product.price * (quantity : Rat)
        let newOrder : Order :=
          { product := product_name, quantity := quantity,
            total_price := total_price, status := "pending",
            customer_name := (context_variables.lookup "customer_name").getD "Unknown" }
        (natSet order_id newOrder orders,
         alSet product_name { product with stock := product.stock - quantity } products,
         { value := "Order created successfully!\nOrder ID: " ++ toString order_id ++
             "\nTotal: $" ++ fmt2 total_price,
           context_variables := [("last_order_id", (order_id : Int))] })

/-- Embeds `TaskError` from `swarm_examples_general/08_error_handling.py`. -/
structure TaskError where
  msg : String
deriving DecidableEq, Repr

/-- `MAX_RETRIES` from `swarm_examples_general/08_error_handling.py`. -/
def MAX_RETRIES : Nat := 3

/-- Embeds the `while retries < MAX_RETRIES` loop of the `wrapper` closure in
`with_retry` (`swarm_examples_general/08_error_handling.py` lines 36–48).
Each call of the wrapped function either returns a string or raises
`TaskError`; because the wrapped call runs under randomness, the outcome of
attempt number `retries` is given by `f retries`.  The `time.sleep` and the
progress print of the original are pure I/O and are dropped. -/
def retryLoop (f : Nat → Except TaskError String) (retries : Nat) :
    Except TaskError String :=
  if _h : retries < MAX_RETRIES then
    match f retries with
    | .ok v => .ok v
    | .error e =>
        if retries + 1 = MAX_RETRIES then
          .ok ("Failed after " ++ toString MAX_RETRIES ++ " retries: " ++ e.msg)
        else retryLoop f (retries + 1)
  else .ok "Maximum retries exceeded"
termination_by MAX_RETRIES - retries
decreasing_by simp only [MAX_RETRIES] at *; omega

/-- Embeds the `wrapper` closure produced by the `with_retry` decorator
(`swarm_examples_general/08_error_handling.py` lines 34–49): the retry loop
started at `retries = 0`.  The codomain `Except TaskError String` makes "the
wrapper raised `TaskError`" expressible; the claim is that it never does. -/
def with_retry (f : Nat → Except TaskError String) : Except TaskError String :=
  retryLoop f 0

/-- The set of Agents a run started at `a0` can ever activate: the initial
Agent, or an Agent produced by resolving a handoff reference through the
environment (§4.4). -/
def reachableFrom (env : AgentRef → Agent) (a0 a : Agent) : Prop :=
  a = a0 ∨ ∃ r, a = env r

/-! ### Concrete fixtures used by witnesses -/

/-- A context-delta tool: ignores its arguments and sets key `k` to `v`. -/
def setTool (nm k v : String) : ToolSpec :=
  { name := nm, params := [], wantsContext := true, producesHandoff := false,
    fn := fun _ _ =>
      .ok { value := "set " ++ k, contextDelta := [(k, v)], agentHandoff := none } }

/-- A parallel-execution agent in the style of `data_agent` of
`06_parallel_tools.py`, with two tools that both set the key `k`. -/
def parAgent : Agent :=
  { name := "Data Processor", model := "gpt-4o",
    instructions := fun _ => "You are a data processing assistant.",
    tools := [setTool "setA" "k" "a", setTool "setB" "k" "b"],
    parallelToolCalls := true }

/-- First call of the witness batch. -/
def callA : ToolCall := { id := "1", name := "setA", args := [] }

/-- Second call of the witness batch. -/
def callB : ToolCall := { id := "2", name := "setB", args := [] }

/-- A handoff tool in the style of `transfer_to_support`: its result carries
the Agent reference `"B"`. -/
def transferTool : ToolSpec :=
  { name := "transfer", params := [], wantsContext := false, producesHandoff := true,
    fn := fun _ _ =>
      .ok { value := "Transferring you to our support team...",
            contextDelta := [], agentHandoff := some "B" } }

/-- First agent of the handoff witnesses. -/
def agentA : Agent :=
  { name := "A", model := "gpt-4o", instructions := fun _ => "You are agent A.",
    tools := [transferTool], parallelToolCalls := false }

/-- Second agent of the handoff witnesses. -/
def agentB : Agent :=
  { name := "B", model := "gpt-4o", instructions := fun _ => "You are agent B.",
    tools := [transferTool], parallelToolCalls := false }

/-- Environment resolving handoff references for the witnesses. -/
def envAB : AgentRef → Agent := fun r => if r = "B" then agentB else agentA

/-- The handoff tool call issued by `transferClient`. -/
def transferCall : ToolCall := { id := "1", name := "transfer", args := [] }

/-- A deterministic stub client that always requests the `transfer` tool. -/
def transferClient : CompletionClient :=
  fun _ _ _ _ => { content := "", toolCalls := [transferCall] }

/-- A deterministic stub client that always answers with plain content. -/
def plainClient : CompletionClient :=
  fun _ _ _ _ => { content := "Hello! How can I help you?", toolCalls := [] }

/-- A handoff tool whose result carries the Agent reference `"C"`. -/
def transferToC : ToolSpec :=
  { name := "transfer_to_c", params := [], wantsContext := false,
    producesHandoff := true,
    fn := fun _ _ =>
      .ok { value := "Transferring you to agent C...",
            contextDelta := [], agentHandoff := some "C" } }

/-- The handoff target of the single-handoff witness: an agent registering no
tools, so no batch run under it can ever request another handoff. -/
def agentC : Agent :=
  { name := "C", model := "gpt-4o", instructions := fun _ => "You are agent C.",
    tools := [], parallelToolCalls := false }

/-- The starting agent of the single-handoff witness. -/
def agentD : Agent :=
  { name := "D", model := "gpt-4o", instructions := fun _ => "You are agent D.",
    tools := [transferToC], parallelToolCalls := false }

/-- Environment resolving handoff references for the single-handoff witness. -/
def envAC : AgentRef → Agent := fun r => if r = "C" then agentC else agentD

/-- The call to `transfer_to_c` issued by `transferCClient`. -/
def transferCCall : ToolCall := { id := "1", name := "transfer_to_c", args := [] }

/-- A deterministic stub client that always requests the `transfer_to_c`
tool; once agent C (which does not register it) is active, the executor
resolves the call to a not-found error and no further handoff occurs. -/
def transferCClient : CompletionClient :=
  fun _ _ _ _ => { content := "", toolCalls := [transferCCall] }

/-- A deterministic stub client that requests one batch of the two `k`-setting
calls on the first turn and finishes on the next. -/
def twoTurnClient : CompletionClient :=
  fun _ _ hist _ =>
    if hist.length ≤ 1 then { content := "", toolCalls := [callA, callB] }
    else { content := "done", toolCalls := [] }

/-- The toolless agent of `01_basic_chat.py`. -/
def basicAgent : Agent :=
  { name := "Basic Helper", model := "gpt-4o",
    instructions := fun _ =>
      "You are a helpful and friendly AI assistant. Keep your responses concise and clear.",
    tools := [], parallelToolCalls := false }

/-- The opening user message of the witness conversations. -/
def userMsg : Message :=
  { role := .user, content := some "hi", sender := "user", toolCalls := [],
    toolCallId := none }

/-- A tool whose wrapped callable raises, in the style of `process_data` of
`08_error_handling.py`: one declared parameter, and the call itself fails. -/
def failTool : ToolSpec :=
  { name := "process_data", params := ["task_name"], wantsContext := false,
    producesHandoff := false,
    fn := fun _ _ => .error "Failed to process data: x" }

/-- An agent registering only the failing tool. -/
def failAgent : Agent :=
  { name := "Error Handler", model := "gpt-4o",
    instructions := fun _ => "You are a robust task execution agent.",
    tools := [failTool], parallelToolCalls := false }

/-- A call to the failing tool that does supply its declared parameter. -/
def failCall : ToolCall :=
  { id := "7", name := "process_data", args := [("task_name", "process_data")] }

/-! ### Helper lemmas on the dictionary primitives -/

theorem lookup_cons [BEq κ] (a k : κ) (v : α) (l : List (κ × α)) :
    List.lookup a ((k, v) :: l) = if a == k then some v else List.lookup a l := by
  cases h : a == k <;> simp [List.lookup, h]

theorem alSet_cons_eq (k : String) (v v' : α) (rest : List (String × α)) :
    alSet k v ((k, v') :: rest) = (k, v) :: rest := by
  simp [alSet]

theorem alSet_cons_ne (k k' : String) (v v' : α) (rest : List (String × α))
    (h : k' ≠ k) : alSet k v ((k', v') :: rest) = (k', v') :: alSet k v rest := by
  simp [alSet, beq_false_of_ne h]

theorem lookup_alSet_self (k : String) (v : α) (l : List (String × α)) :
    (alSet k v l).lookup k = some v := by
  induction l with
  | nil => simp [alSet, lookup_cons]
  | cons p rest ih =>
      obtain ⟨k', v'⟩ := p
      by_cases h : k' = k
      · subst h
        simp [alSet_cons_eq, lookup_cons]
      · rw [alSet_cons_ne _ _ _ _ _ h, lookup_cons]
        simp [beq_false_of_ne (fun hk => h hk.symm), ih]

theorem lookup_alSet_of_ne (k k' : String) (v : α) (l : List (String × α))
    (h : k' ≠ k) : (alSet k v l).lookup k' = l.lookup k' := by
  induction l with
  | nil =>
      simp [alSet, lookup_cons, beq_false_of_ne h]
  | cons p rest ih =>
      obtain ⟨k0, v0⟩ := p
      by_cases h0 : k0 = k
      · subst h0
        rw [alSet_cons_eq, lookup_cons, lookup_cons]
        simp [beq_false_of_ne h]
      · rw [alSet_cons_ne _ _ _ _ _ h0, lookup_cons, lookup_cons, ih]

theorem natSet_eq_append (k : Nat) (v : α) (l : List (Nat × α))
    (h : ∀ p ∈ l, p.1 ≠ k) : natSet k v l = l ++ [(k, v)] := by
  induction l with
  | nil => simp [natSet]
  | cons p rest ih =>
      obtain ⟨k', v'⟩ := p
      have hk : k' ≠ k := h (k', v') (List.mem_cons_self _ _)
      simp only [natSet, beq_iff_eq, if_neg hk, List.cons_append, List.cons.injEq,
        true_and]
      exact ih (fun q hq => h q (List.mem_cons_of_mem _ hq))

theorem natLookup_eq_none (k : Nat) (l : List (Nat × α))
    (h : ∀ p ∈ l, p.1 ≠ k) : l.lookup k = none := by
  induction l with
  | nil => rfl
  | cons p rest ih =>
      obtain ⟨k', v'⟩ := p
      have hk : k' ≠ k := h (k', v') (List.mem_cons_self _ _)
      rw [lookup_cons, if_neg, ih (fun q hq => h q (List.mem_cons_of_mem _ hq))]
      simp only [beq_iff_eq]
      exact fun hkk => hk hkk.symm

/-! ### Theorems for the claims about code under `src/` -/

/-- **C9.** For every tool function wrapped by the `with_retry` decorator, the
wrapper never lets a `TaskError` escape to its caller: a first successful
attempt among the first `MAX_RETRIES = 3` is returned as is, and if all three
attempts raise `TaskError` the wrapper returns the textual failure string
built from the last error instead of raising. -/
theorem c9_with_retry_never_raises (f : Nat → Except TaskError String) :
    (with_retry f).isOk = true ∧
    (∀ v, f 0 = .ok v → with_retry f = .ok v) ∧
    (∀ e0 v, f 0 = .error e0 → f 1 = .ok v → with_retry f = .ok v) ∧
    (∀ e0 e1 v, f 0 = .error e0 → f 1 = .error e1 → f 2 = .ok v →
        with_retry f = .ok v) ∧
    (∀ e0 e1 e2, f 0 = .error e0 → f 1 = .error e1 → f 2 = .error e2 →
        with_retry f = .ok ("Failed after 3 retries: " ++ e2.msg)) := by
  have hrun : with_retry f =
      (match f 0 with
        | .ok v => .ok v
        | .error _ =>
          match f 1 with
          | .ok v => .ok v
          | .error _ =>
            match f 2 with
            | .ok v => .ok v
            | .error e2 => .ok ("Failed after 3 retries: " ++ e2.msg)) := by
    unfold with_retry
    rw [retryLoop, dif_pos (by decide : (0 : Nat) < MAX_RETRIES)]
    cases h0 : f 0 with
    | ok v => rfl
    | error e0 =>
        dsimp only
        rw [if_neg (by decide : ¬ (0 + 1 = MAX_RETRIES)), retryLoop]
        simp only [show (0 : Nat) + 1 = 1 from rfl]
        rw [dif_pos (by decide : (1 : Nat) < MAX_RETRIES)]
        cases h1 : f 1 with
        | ok v => rfl
        | error e1 =>
            dsimp only
            rw [if_neg (by decide : ¬ (1 + 1 = MAX_RETRIES)), retryLoop]
            simp only [show (1 : Nat) + 1 = 2 from rfl]
            rw [dif_pos (by decide : (2 : Nat) < MAX_RETRIES)]
            cases h2 : f 2 with
            | ok v => rfl
            | error e2 =>
                dsimp only
                rw [if_pos (by decide : (2 + 1 = MAX_RETRIES))]
                rfl
  refine ⟨?_, ?_, ?_, ?_, ?_⟩
  · rw [hrun]
    cases f 0 with
    | ok v => rfl
    | error e0 =>
        cases f 1 with
        | ok v => rfl
        | error e1 =>
            cases f 2 with
            | ok v => rfl
            | error e2 => rfl
  · intro v h0
    rw [hrun, h0]
  · intro e0 v h0 h1
    rw [hrun, h0, h1]
  · intro e0 e1 v h0 h1 h2
    rw [hrun, h0, h1, h2]
  · intro e0 e1 e2 h0 h1 h2
    rw [hrun, h0, h1, h2]

/-- Witness for C9 at a wrapped function whose every attempt raises
`TaskError`. -/
theorem c9_witness :
    (with_retry (fun _ => .error ⟨"Failed to process data: x"⟩)).isOk = true ∧
    with_retry (fun _ => .error ⟨"Failed to process data: x"⟩)
      = .ok "Failed after 3 retries: Failed to process data: x" := by
  refine ⟨(c9_with_retry_never_raises (fun _ => .error ⟨"Failed to process data: x"⟩)).1, ?_⟩
  exact (c9_with_retry_never_raises (fun _ => .error ⟨"Failed to process data: x"⟩)).2.2.2.2
    ⟨"Failed to process data: x"⟩ ⟨"Failed to process data: x"⟩
    ⟨"Failed to process data: x"⟩ rfl rfl rfl

/-- **C10.** `create_order` is atomic on error: when the product is unknown,
the quantity is not positive, or the quantity exceeds the available stock, it
returns the corresponding error `Result` and leaves `ORDERS` and `PRODUCTS`
unchanged; on success it adds exactly one new order under a fresh id
(`len(ORDERS) + 1`, fresh because every existing id is at most
`len(ORDERS)` — an invariant the success branch itself preserves), decreases
that product's stock by exactly the ordered quantity and leaves every other
product untouched. -/
theorem c10_create_order_atomic (cvs : List (String × String))
    (orders : List (Nat × Order)) (products : List (String × Product))
    (product_name : String) (quantity : Int) :
    (products.lookup product_name = none →
        create_order cvs orders products product_name quantity
          = (orders, products,
             { value := "Product '" ++ product_name ++ "' not found.",
               context_variables := [] })) ∧
    (∀ p, products.lookup product_name = some p → quantity ≤ 0 →
        create_order cvs orders products product_name quantity
          = (orders, products,
             { value := "Quantity must be positive.", context_variables := [] })) ∧
    (∀ p, products.lookup product_name = some p → 0 < quantity →
        p.stock < quantity →
        create_order cvs orders products product_name quantity
          = (orders, products,
             { value := "Insufficient stock. Only " ++ toString p.stock ++
                 " units available.",
               context_variables := [] })) ∧
    (∀ p, products.lookup product_name = some p → 0 < quantity →
        quantity ≤ p.stock → (∀ q ∈ orders, q.1 ≤ orders.length) →
        (create_order cvs orders products product_name quantity).1
            = orders ++ [(orders.length + 1,
                { product := product_name, quantity := quantity,
                  total_price := p.price * (quantity : Rat), status := "pending",
                  customer_name := (cvs.lookup "customer_name").getD "Unknown" })] ∧
          orders.lookup (orders.length + 1) = none ∧
          (create_order cvs orders products product_name quantity).2.1
            = alSet product_name { p with stock := p.stock - quantity } products ∧
          ((create_order cvs orders products product_name quantity).2.1).lookup
              product_name = some { p with stock := p.stock - quantity } ∧
          (∀ other, other ≠ product_name →
            ((create_order cvs orders products product_name quantity).2.1).lookup
                other = products.lookup other) ∧
          (∀ q ∈ (create_order cvs orders products product_name quantity).1,
            q.1 ≤ (create_order cvs orders products product_name quantity).1.length) ∧
          (create_order cvs orders products product_name quantity).2.2.context_variables
            = [("last_order_id", ((orders.length + 1 : Nat) : Int))]) := by
  refine ⟨?_, ?_, ?_, ?_⟩
  · intro hnone
    simp [create_order, hnone]
  · intro p hp hq
    simp [create_order, hp, if_pos hq]
  · intro p hp hq hs
    rw [create_order, hp]
    dsimp only
    rw [if_neg (by omega), if_pos hs]
  · intro p hp hq hs hkeys
    have hfresh : ∀ q ∈ orders, q.1 ≠ orders.length + 1 := by
      intro q hq'
      have := hkeys q hq'
      omega
    have hco : create_order cvs orders products product_name quantity
        = (natSet (orders.length + 1)
             { product := product_name, quantity := quantity,
               total_price := p.price * (quantity : Rat), status := "pending",
               customer_name := (cvs.lookup "customer_name").getD "Unknown" } orders,
           alSet product_name { p with stock := p.stock - quantity } products,
           { value := "Order created successfully!\nOrder ID: " ++
               toString (orders.length + 1) ++ "\nTotal: $" ++
               fmt2 (p.price * (quantity : Rat)),
             context_variables := [("last_order_id", ((orders.length + 1 : Nat) : Int))] }) := by
      rw [create_order, hp]
      dsimp only
      rw [if_neg (by omega), if_neg (by omega)]
    rw [hco, natSet_eq_append _ _ _ hfresh]
    refine ⟨rfl, natLookup_eq_none _ _ hfresh, rfl, lookup_alSet_self _ _ _,
      ?_, ?_, rfl⟩
    · intro other hother
      exact lookup_alSet_of_ne _ _ _ _ hother
    · intro q hq'
      simp only [List.length_append, List.length_cons, List.length_nil]
      rcases List.mem_append.mp hq' with hmem | hmem
      · have := hkeys q hmem
        omega
      · simp only [List.mem_singleton] at hmem
        subst hmem
        omega

/-- Witness for C10: ordering two laptops from the initial stores appends
order 1 and lowers the laptop stock from 50 to 48. -/
theorem c10_witness :
    ((create_order [("customer_name", "Ada")] [] PRODUCTS10 "laptop" 2).1.map
        (fun q => (q.1, q.2.product, q.2.quantity, q.2.customer_name)))
      = [(1, "laptop", 2, "Ada")] ∧
    (((create_order [("customer_name", "Ada")] [] PRODUCTS10 "laptop" 2).2.1).lookup
        "laptop").map Product.stock = some 48 ∧
    (create_order [("customer_name", "Ada")] [] PRODUCTS10 "laptop" 2).2.2.context_variables
      = [("last_order_id", 1)] := by
  have h := (c10_create_order_atomic [("customer_name", "Ada")] [] PRODUCTS10
      "laptop" 2).2.2.2 ⟨99999 / 100, 50, "electronics"⟩
      rfl (by decide) (by decide) (by intro q hq; cases hq)
  refine ⟨?_, ?_, ?_⟩
  · rw [h.1]
    rfl
  · rw [h.2.2.2.1]
    rfl
  · rw [h.2.2.2.2.2.2]
    rfl

/-- **C2 counterexample.** The claim says the context snapshot passed to a
context-consuming tool is unchanged by the invocation.  `update_preferences`
(customer-service example 03) performs `context_variables[preference_type] =
value` in place: after invoking it on a context binding
`preferred_language ↦ English`, the caller-visible mapping differs from the
snapshot that was passed in. -/
theorem c2_snapshot_mutated_counterexample :
    (update_preferences [("preferred_language", "English")]
        "preferred_language" "Turkish").1
      ≠ [("preferred_language", "English")] := by
  decide

/-- **C2 (amended).** The context-consuming tools of the examples communicate
state changes by mutating the passed mapping in place, not only through
returned deltas: `update_preferences` writes the preference directly into the
passed mapping and returns only a confirmation string (no delta), and
`add_to_cart`, whenever the passed context already contains a cart and the
item is in the catalog, updates that aliased cart in place (in addition to
returning it as its delta); only `add_to_cart`'s unknown-product failure path
leaves the snapshot unchanged. -/
theorem c2_tools_mutate_snapshot_in_place :
    (∀ (cv : List (String × String)) (pt v : String),
        (update_preferences cv pt v).1 = alSet pt v cv ∧
        ((update_preferences cv pt v).1).lookup pt = some v ∧
        (update_preferences cv pt v).2 = "Updated " ++ pt ++ " to: " ++ v) ∧
    (∀ (cv : ShopCtx) (item : String) (q : Int) (cart : List (String × Int)),
        cv.lookup "cart" = some cart →
        (PRODUCTS3.lookup (pyLower item)).isSome = true →
        ((add_to_cart cv item q).1).lookup "cart"
          = some (alSet (pyLower item) ((cart.lookup (pyLower item)).getD 0 + q) cart) ∧
        (add_to_cart cv item q).2.context_variables
          = [("cart", alSet (pyLower item) ((cart.lookup (pyLower item)).getD 0 + q) cart)]) ∧
    (∀ (cv : ShopCtx) (item : String) (q : Int),
        PRODUCTS3.lookup (pyLower item) = none →
        (add_to_cart cv item q).1 = cv) := by
  refine ⟨?_, ?_, ?_⟩
  · intro cv pt v
    exact ⟨rfl, lookup_alSet_self _ _ _, rfl⟩
  · intro cv item q cart hcart hitem
    have hnotNone : (PRODUCTS3.lookup (pyLower item)).isNone = false := by
      cases hx : PRODUCTS3.lookup (pyLower item) with
      | none => rw [hx] at hitem; cases hitem
      | some _ => rfl
    rw [add_to_cart, if_neg (by rw [hnotNone]; exact Bool.false_ne_true)]
    dsimp only
    rw [hcart]
    dsimp only [Option.getD_some, Option.isSome_some, if_pos rfl]
    exact ⟨lookup_alSet_self _ _ _, rfl⟩
  · intro cv item q hnone
    rw [add_to_cart, if_pos (by rw [hnone]; rfl)]

/-- Witness for C2's amended statement: adding one laptop to a context whose
cart holds one phone mutates the caller-visible cart in place. -/
theorem c2_witness :
    ((add_to_cart [("cart", [("phone", 1)])] "Laptop" 1).1).lookup "cart"
      = some [("phone", 1), ("laptop", 1)] ∧
    (update_preferences [] "preferred_language" "Turkish").1.lookup
        "preferred_language" = some "Turkish" := by
  constructor
  · have h := (c2_tools_mutate_snapshot_in_place.2.1
      [("cart", [("phone", 1)])] "Laptop" 1 [("phone", 1)] (by decide) (by decide)).1
    rw [h]
    decide
  · exact (c2_tools_mutate_snapshot_in_place.1 [] "preferred_language" "Turkish").2.1

/-! ### Parallel execution gathers results in call order -/

theorem find?_completedPar (agent : Agent) (ctx : Ctx) (calls : List ToolCall)
    (order : List Nat) (j : Nat) (c : ToolCall)
    (hc : calls.get? j = some c) (hj : j ∈ order) :
    (completedPar agent ctx calls order).find? (fun p => p.1 == j)
      = some (j, execCall agent ctx c) := by
  induction order with
  | nil => cases hj
  | cons i rest ih =>
      by_cases hij : i = j
      · subst hij
        have hc' := hc
        rw [List.get?_eq_getElem?] at hc'
        have hred : completedPar agent ctx calls (i :: rest)
            = (i, execCall agent ctx c) :: completedPar agent ctx calls rest := by
          simp [completedPar, List.filterMap_cons, hc']
        rw [hred, List.find?_cons_of_pos _ (by simp)]
      · have hj' : j ∈ rest := by
          rcases List.mem_cons.mp hj with h | h
          · exact absurd h.symm hij
          · exact h
        cases hgi : calls.get? i with
        | none =>
            have hgi' := hgi
            rw [List.get?_eq_getElem?] at hgi'
            have hred : completedPar agent ctx calls (i :: rest)
                = completedPar agent ctx calls rest := by
              simp [completedPar, List.filterMap_cons, hgi']
            rw [hred]
            exact ih hj'
        | some ci =>
            have hgi' := hgi
            rw [List.get?_eq_getElem?] at hgi'
            have hred : completedPar agent ctx calls (i :: rest)
                = (i, execCall agent ctx ci) :: completedPar agent ctx calls rest := by
              simp [completedPar, List.filterMap_cons, hgi']
            rw [hred, List.find?_cons_of_neg _ (by simp [hij])]
            exact ih hj'

theorem filterMap_eq_map_of_forall (l : List α) (f : α → Option β) (g : α → β)
    (h : ∀ x ∈ l, f x = some (g x)) : l.filterMap f = l.map g := by
  induction l with
  | nil => rfl
  | cons a rest ih =>
      rw [List.filterMap_cons, h a (List.mem_cons_self _ _), List.map_cons,
        ih (fun x hx => h x (List.mem_cons_of_mem _ hx))]

/-- The completion order of a valid schedule is invisible: gathering the
concurrently computed results back by call index yields exactly the serial
call-order execution. -/
theorem executeBatchPar_eq_seq (agent : Agent) (ctx : Ctx)
    (calls : List ToolCall) (order : List Nat)
    (hord : ValidOrder order calls.length) :
    executeBatchPar agent ctx calls order = executeBatchSeq agent ctx calls := by
  unfold executeBatchPar executeBatchSeq
  have dflt : ToolCall := ⟨"", "", []⟩
  have hstep : (List.range calls.length).filterMap
      (fun j => ((completedPar agent ctx calls order).find? (fun p => p.1 == j)).map (·.2))
      = (List.range calls.length).map
          (fun j => execCall agent ctx (calls.getD j ⟨"", "", []⟩)) := by
    apply filterMap_eq_map_of_forall
    intro j hj
    have hjlt : j < calls.length := List.mem_range.mp hj
    obtain ⟨c, hc⟩ : ∃ c, calls.get? j = some c := by
      cases hx : calls.get? j with
      | none =>
          exact absurd (List.get?_eq_none.mp hx) (by omega)
      | some c => exact ⟨c, rfl⟩
    rw [find?_completedPar agent ctx calls order j c hc (hord j hjlt)]
    have : calls.getD j ⟨"", "", []⟩ = c := by
      rw [List.getD_eq_getElem?_getD, ← List.get?_eq_getElem?, hc]
      rfl
    rw [this]
    rfl
  rw [hstep]
  apply List.ext_getElem
  · simp
  · intro i h1 h2
    simp only [List.getElem_map, List.getElem_range]
    congr 1
    rw [List.getD_eq_getElem?_getD, List.getElem?_eq_getElem (by simpa using h2)]
    rfl

/-- Batch dispatch is independent of the completion order for every valid
schedule, whether or not the agent enables parallel execution. -/
theorem executeBatch_eq_seq (agent : Agent) (ctx : Ctx)
    (calls : List ToolCall) (order : List Nat)
    (hord : ValidOrder order calls.length) :
    executeBatch agent ctx calls order = executeBatchSeq agent ctx calls := by
  unfold executeBatch
  split
  · exact executeBatchPar_eq_seq agent ctx calls order hord
  · rfl

/-! ### Context merging is last-binding-wins over the call-ordered deltas -/

theorem mergeDelta_eq_reverse_append (ctx : Ctx) (delta : List (String × String)) :
    mergeDelta ctx delta = delta.reverse ++ ctx := by
  induction delta generalizing ctx with
  | nil => rfl
  | cons a rest ih =>
      show mergeDelta (ctxSet a.1 a.2 ctx) rest = _
      rw [ih, ctxSet, List.reverse_cons, List.append_assoc]
      rfl

theorem mergeDeltas_eq_reverse_append (ctx : Ctx)
    (deltas : List (List (String × String))) :
    mergeDeltas ctx deltas = deltas.flatten.reverse ++ ctx := by
  induction deltas generalizing ctx with
  | nil => rfl
  | cons d ds ih =>
      show mergeDeltas (mergeDelta ctx d) ds = _
      rw [ih, mergeDelta_eq_reverse_append, List.flatten_cons, List.reverse_append,
        List.append_assoc]

theorem ctxGet_reverse_append (ctx : Ctx) (entries : List (String × String))
    (k : String) :
    ctxGet k (entries.reverse ++ ctx)
      = match lastBinding k entries with
        | some v => some v
        | none => ctxGet k ctx := by
  unfold ctxGet lastBinding
  rw [List.find?_append]
  cases hf : entries.reverse.find? (fun p => p.1 == k) with
  | none => simp [Option.or]
  | some p => simp [Option.or]

/-! ### One-turn case analysis of the Run Loop -/

theorem stepWithResp_done (env : AgentRef → Agent) (cfg : RunConfig)
    (sched : Nat → List Nat) (st : RunState) (resp : Resp)
    (h : resp.toolCalls = []) :
    stepWithResp env cfg sched st resp = .finished
      { messages := st.newMsgs ++ [mkAssistantMessage st.agent resp],
        finalAgent := st.agent, context := st.ctx, termination := .done,
        handoffs := st.handoffs } := by
  simp [stepWithResp, h]

theorem stepWithResp_handoff_next (env : AgentRef → Agent) (cfg : RunConfig)
    (sched : Nat → List Nat) (st : RunState) (resp : Resp) (ref : AgentRef)
    (hcalls : resp.toolCalls ≠ [])
    (href : lastHandoff (executeBatch st.agent st.ctx resp.toolCalls (sched st.turn))
      = some ref)
    (hmax : st.handoffs + 1 ≤ cfg.maxHandoffs) :
    stepWithResp env cfg sched st resp = .next
      { agent := env ref,
        history := st.history ++ [mkAssistantMessage st.agent resp]
          ++ batchMessages st.agent resp.toolCalls
               (executeBatch st.agent st.ctx resp.toolCalls (sched st.turn)),
        ctx := mergeDeltas st.ctx
          ((executeBatch st.agent st.ctx resp.toolCalls (sched st.turn)).map
            (·.contextDelta)),
        newMsgs := st.newMsgs ++ [mkAssistantMessage st.agent resp]
          ++ batchMessages st.agent resp.toolCalls
               (executeBatch st.agent st.ctx resp.toolCalls (sched st.turn)),
        handoffs := st.handoffs + 1, turn := st.turn + 1 } := by
  have hne : ¬ resp.toolCalls.isEmpty = true := by
    simp [List.isEmpty_iff, hcalls]
  simp only [stepWithResp]
  rw [if_neg hne, href]
  dsimp only
  rw [if_neg (by omega : ¬ cfg.maxHandoffs < st.handoffs + 1)]

theorem stepWithResp_handoff_finished (env : AgentRef → Agent) (cfg : RunConfig)
    (sched : Nat → List Nat) (st : RunState) (resp : Resp) (ref : AgentRef)
    (hcalls : resp.toolCalls ≠ [])
    (href : lastHandoff (executeBatch st.agent st.ctx resp.toolCalls (sched st.turn))
      = some ref)
    (hmax : cfg.maxHandoffs < st.handoffs + 1) :
    stepWithResp env cfg sched st resp = .finished
      { messages := st.newMsgs ++ [mkAssistantMessage st.agent resp]
          ++ batchMessages st.agent resp.toolCalls
               (executeBatch st.agent st.ctx resp.toolCalls (sched st.turn)),
        finalAgent := env ref,
        context := mergeDeltas st.ctx
          ((executeBatch st.agent st.ctx resp.toolCalls (sched st.turn)).map
            (·.contextDelta)),
        termination := .handoffLoopExceeded, handoffs := st.handoffs + 1 } := by
  have hne : ¬ resp.toolCalls.isEmpty = true := by
    simp [List.isEmpty_iff, hcalls]
  simp only [stepWithResp]
  rw [if_neg hne, href]
  dsimp only
  rw [if_pos hmax]

theorem stepWithResp_nohandoff_next (env : AgentRef → Agent) (cfg : RunConfig)
    (sched : Nat → List Nat) (st : RunState) (resp : Resp)
    (hcalls : resp.toolCalls ≠ [])
    (hnone : lastHandoff (executeBatch st.agent st.ctx resp.toolCalls (sched st.turn))
      = none) :
    stepWithResp env cfg sched st resp = .next
      { agent := st.agent,
        history := st.history ++ [mkAssistantMessage st.agent resp]
          ++ batchMessages st.agent resp.toolCalls
               (executeBatch st.agent st.ctx resp.toolCalls (sched st.turn)),
        ctx := mergeDeltas st.ctx
          ((executeBatch st.agent st.ctx resp.toolCalls (sched st.turn)).map
            (·.contextDelta)),
        newMsgs := st.newMsgs ++ [mkAssistantMessage st.agent resp]
          ++ batchMessages st.agent resp.toolCalls
               (executeBatch st.agent st.ctx resp.toolCalls (sched st.turn)),
        handoffs := st.handoffs, turn := st.turn + 1 } := by
  have hne : ¬ resp.toolCalls.isEmpty = true := by
    simp [List.isEmpty_iff, hcalls]
  simp only [stepWithResp]
  rw [if_neg hne, hnone]

/-! ### Claims about the Tool Executor and Context merging -/

/-- **C1.** For every batch of tool calls of one assistant message, under an
agent enabling parallel execution, batch execution is independent of the
completion order of the concurrent tasks (any valid schedule yields the serial
call-order results), and the merged Context maps a key to the value of the
last call-order delta entry setting it; a key no delta sets keeps its
original value.  The merge is therefore deterministic for a fixed call-order
list. -/
theorem c1_parallel_merge_last_call_wins (agent : Agent) (ctx : Ctx)
    (calls : List ToolCall) (order : List Nat) (k v : String)
    (hord : ValidOrder order calls.length) :
    executeBatch agent ctx calls order = executeBatchSeq agent ctx calls ∧
    (lastBinding k
        (((executeBatchSeq agent ctx calls).map (·.contextDelta)).flatten) = some v →
      ctxGet k (mergeDeltas ctx
          ((executeBatch agent ctx calls order).map (·.contextDelta))) = some v) ∧
    (lastBinding k
        (((executeBatchSeq agent ctx calls).map (·.contextDelta)).flatten) = none →
      ctxGet k (mergeDeltas ctx
          ((executeBatch agent ctx calls order).map (·.contextDelta)))
        = ctxGet k ctx) := by
  have heq := executeBatch_eq_seq agent ctx calls order hord
  refine ⟨heq, ?_, ?_⟩
  · intro hlb
    rw [heq, mergeDeltas_eq_reverse_append, ctxGet_reverse_append, hlb]
  · intro hlb
    rw [heq, mergeDeltas_eq_reverse_append, ctxGet_reverse_append, hlb]

/-- Witness for C1: two parallel calls both set `k`; with completion order
`[1, 0]` (second call finishes first) the merged Context still maps `k` to
the second call's value `"b"`, the one last in call order. -/
theorem c1_witness :
    executeBatch parAgent [] [callA, callB] [1, 0]
      = executeBatchSeq parAgent [] [callA, callB] ∧
    ctxGet "k" (mergeDeltas []
        ((executeBatch parAgent [] [callA, callB] [1, 0]).map (·.contextDelta)))
      = some "b" := by
  have h := c1_parallel_merge_last_call_wins parAgent [] [callA, callB] [1, 0]
    "k" "b" (by intro j hj; simp [callA, callB] at hj; interval_cases j <;> decide)
  refine ⟨h.1, ?_⟩
  exact h.2.1 (by decide)

/-- **C6.** For every tool batch, the tool-role Messages appended after the
batch carry the ToolCall ids in exactly the order the ToolCalls appeared in
the originating assistant Message, for every valid completion order of the
concurrently executing tasks. -/
theorem c6_tool_message_order (agent : Agent) (ctx : Ctx)
    (calls : List ToolCall) (order : List Nat)
    (hord : ValidOrder order calls.length) :
    (batchMessages agent calls (executeBatch agent ctx calls order)).map
        (·.toolCallId)
      = calls.map (fun c => some c.id) ∧
    (batchMessages agent calls (executeBatch agent ctx calls order)).map
        (·.role)
      = calls.map (fun _ => Role.tool) := by
  rw [executeBatch_eq_seq agent ctx calls order hord]
  clear hord
  induction calls with
  | nil => exact ⟨rfl, rfl⟩
  | cons c rest ih =>
      have hcons : batchMessages agent (c :: rest)
          (executeBatchSeq agent ctx (c :: rest))
          = mkToolMessage agent c (execCall agent ctx c)
            :: batchMessages agent rest (executeBatchSeq agent ctx rest) := rfl
      refine ⟨?_, ?_⟩
      · rw [hcons, List.map_cons, ih.1, List.map_cons]
        rfl
      · rw [hcons, List.map_cons, ih.2, List.map_cons]
        rfl

/-- Witness for C6: the batch of the two `k`-setting calls executed with
completion order `[1, 0]` still reports tool messages in id order
`["1", "2"]`. -/
theorem c6_witness :
    (batchMessages parAgent [callA, callB]
        (executeBatch parAgent [] [callA, callB] [1, 0])).map (·.toolCallId)
      = [some "1", some "2"] ∧
    (batchMessages parAgent [callA, callB]
        (executeBatch parAgent [] [callA, callB] [1, 0])).map (·.role)
      = [Role.tool, Role.tool] := by
  have h := c6_tool_message_order parAgent [] [callA, callB] [1, 0]
    (by intro j hj; simp [callA, callB] at hj; interval_cases j <;> decide)
  refine ⟨?_, ?_⟩
  · rw [h.1]
    decide
  · rw [h.2]
    decide

/-- **C7.** For every tool invocation whose tool name is unknown, whose
argument validation fails, or whose tool raises an error, the Tool Executor
produces a ToolResult whose payload is the textual error (carrying no delta
and no handoff), and that payload is fed back to the model as the tool-role
message at the call's position in the batch; the error never propagates past
the executor (`execCall` is total) and never aborts the Run (the Run Loop
branches only on the presence of tool calls and handoffs, never on error
payloads). -/
theorem c7_tool_errors_contained (agent : Agent) (ctx : Ctx)
    (calls : List ToolCall) (i : Nat) (hi : i < calls.length) :
    (agent.tools.find? (fun t => t.name == (calls.get ⟨i, hi⟩).name) = none →
      execCall agent ctx (calls.get ⟨i, hi⟩)
        = { value := "Error: tool " ++ (calls.get ⟨i, hi⟩).name ++ " not found.",
            contextDelta := [], agentHandoff := none }) ∧
    (∀ t, agent.tools.find? (fun s => s.name == (calls.get ⟨i, hi⟩).name) = some t →
      validateArgs t (calls.get ⟨i, hi⟩).args = false →
      execCall agent ctx (calls.get ⟨i, hi⟩)
        = { value := "Error: invalid arguments for tool " ++ t.name ++ ".",
            contextDelta := [], agentHandoff := none }) ∧
    (∀ t e, agent.tools.find? (fun s => s.name == (calls.get ⟨i, hi⟩).name) = some t →
      validateArgs t (calls.get ⟨i, hi⟩).args = true →
      t.fn ctx (calls.get ⟨i, hi⟩).args = .error e →
      execCall agent ctx (calls.get ⟨i, hi⟩)
        = { value := "Error: " ++ e, contextDelta := [], agentHandoff := none }) ∧
    (batchMessages agent calls (executeBatchSeq agent ctx calls)).get? i
      = some (mkToolMessage agent (calls.get ⟨i, hi⟩)
          (execCall agent ctx (calls.get ⟨i, hi⟩))) := by
  refine ⟨?_, ?_, ?_, ?_⟩
  · intro hnone
    rw [execCall, hnone]
  · intro t hfind hval
    rw [execCall, hfind]
    dsimp only
    rw [if_neg (by rw [hval]; exact Bool.false_ne_true)]
  · intro t e hfind hval herr
    rw [execCall, hfind]
    dsimp only
    rw [if_pos hval, herr]
  · have hmsgs : ∀ (cs : List ToolCall),
        batchMessages agent cs (executeBatchSeq agent ctx cs)
          = cs.map (fun c => mkToolMessage agent c (execCall agent ctx c)) := by
      intro cs
      induction cs with
      | nil => rfl
      | cons c rest ih =>
          show mkToolMessage agent c (execCall agent ctx c)
              :: batchMessages agent rest (executeBatchSeq agent ctx rest) = _
          rw [ih, List.map_cons]
    rw [hmsgs, List.get?_map, List.get?_eq_get hi]
    rfl

/-- Witness for C7: the failing `process_data` tool.  A call with the
declared argument missing yields the invalid-arguments payload; a call whose
tool raises yields the `Error: ...` payload; a call to an unknown tool name
yields the not-found payload, and each payload appears as the tool-role
message of its batch position. -/
theorem c7_witness :
    execCall failAgent [] ({ id := "7", name := "process_data", args := [] })
      = { value := "Error: invalid arguments for tool process_data.",
          contextDelta := [], agentHandoff := none } ∧
    execCall failAgent [] failCall
      = { value := "Error: Failed to process data: x",
          contextDelta := [], agentHandoff := none } ∧
    execCall failAgent [] ({ id := "8", name := "no_such_tool", args := [] })
      = { value := "Error: tool no_such_tool not found.",
          contextDelta := [], agentHandoff := none } ∧
    (batchMessages failAgent [failCall]
        (executeBatchSeq failAgent [] [failCall])).get? 0
      = some (mkToolMessage failAgent failCall (execCall failAgent [] failCall)) := by
  refine ⟨?_, ?_, ?_, ?_⟩
  · exact (c7_tool_errors_contained failAgent []
      [{ id := "7", name := "process_data", args := [] }] 0 (by decide)).2.1
      failTool rfl rfl
  · exact (c7_tool_errors_contained failAgent [] [failCall] 0 (by decide)).2.2.1
      failTool "Failed to process data: x" rfl rfl rfl
  · exact (c7_tool_errors_contained failAgent []
      [{ id := "8", name := "no_such_tool", args := [] }] 0 (by decide)).1
      rfl
  · exact (c7_tool_errors_contained failAgent [] [failCall] 0 (by decide)).2.2.2

/-- **C5.** For every Agent registering no ToolSpecs, a run over any message
history and Context returns exactly one new assistant Message and leaves the
Context unchanged, provided the Completion Client honours its contract of
issuing tool calls only against advertised schemas and at least one turn is
allowed. -/
theorem c5_no_tools_single_message (env : AgentRef → Agent)
    (client : CompletionClient) (cfg : RunConfig) (sched : Nat → List Nat)
    (agent : Agent) (hist : List Message) (ctx : Ctx)
    (hnotools : agent.tools = [])
    (hclient : ∀ model instr msgs, (client model instr msgs []).toolCalls = [])
    (hfuel : 0 < cfg.maxTurns) :
    runBlocking env client cfg sched agent hist ctx
      = { messages := [mkAssistantMessage agent
            (client agent.model (agent.instructions ctx) hist [])],
          finalAgent := agent, context := ctx, termination := .done,
          handoffs := 0 } := by
  unfold runBlocking
  obtain ⟨n, hn⟩ : ∃ n, cfg.maxTurns = n + 1 := ⟨cfg.maxTurns - 1, by omega⟩
  rw [hn, runLoop]
  have hresp : respond client
      { agent := agent, history := hist, ctx := ctx, newMsgs := [],
        handoffs := 0, turn := 0 }
      = client agent.model (agent.instructions ctx) hist [] := by
    simp [respond, schemas, hnotools]
  rw [hresp, stepWithResp_done env cfg sched _ _ (hclient _ _ _)]
  rfl

/-- Witness for C5: the toolless `basicAgent` under the plain stub client
produces exactly one assistant message and returns the initial Context
unchanged. -/
theorem c5_witness :
    runBlocking envAB plainClient ⟨5, 10⟩ (fun _ => []) basicAgent [userMsg]
        [("customer_name", "Ada")]
      = { messages := [mkAssistantMessage basicAgent
            (plainClient basicAgent.model
              (basicAgent.instructions [("customer_name", "Ada")]) [userMsg] [])],
          finalAgent := basicAgent, context := [("customer_name", "Ada")],
          termination := .done, handoffs := 0 } :=
  c5_no_tools_single_message envAB plainClient ⟨5, 10⟩ (fun _ => []) basicAgent
    [userMsg] [("customer_name", "Ada")] rfl (fun _ _ _ => rfl) (by decide)

theorem stepWithResp_newMsgs_extend (env : AgentRef → Agent) (cfg : RunConfig)
    (sched : Nat → List Nat) (st : RunState) (resp : Resp) :
    (∀ r, stepWithResp env cfg sched st resp = .finished r →
        ∃ tail, r.messages = st.newMsgs ++ tail) ∧
    (∀ st', stepWithResp env cfg sched st resp = .next st' →
        ∃ tail, st'.newMsgs = st.newMsgs ++ tail) := by
  by_cases hempty : resp.toolCalls = []
  · rw [stepWithResp_done env cfg sched st resp hempty]
    constructor
    · intro r hr
      injection hr with h
      exact ⟨[mkAssistantMessage st.agent resp], by rw [← h]⟩
    · intro st' h
      simp at h
  · cases hhand : lastHandoff (executeBatch st.agent st.ctx resp.toolCalls (sched st.turn)) with
    | none =>
        rw [stepWithResp_nohandoff_next env cfg sched st resp hempty hhand]
        constructor
        · intro r hr
          simp at hr
        · intro st' h
          injection h with h
          refine ⟨[mkAssistantMessage st.agent resp]
            ++ batchMessages st.agent resp.toolCalls
                 (executeBatch st.agent st.ctx resp.toolCalls (sched st.turn)), ?_⟩
          rw [← h]
          simp [List.append_assoc]
    | some ref =>
        by_cases hmax : cfg.maxHandoffs < st.handoffs + 1
        · rw [stepWithResp_handoff_finished env cfg sched st resp ref hempty hhand hmax]
          constructor
          · intro r hr
            injection hr with h
            refine ⟨[mkAssistantMessage st.agent resp]
              ++ batchMessages st.agent resp.toolCalls
                   (executeBatch st.agent st.ctx resp.toolCalls (sched st.turn)), ?_⟩
            rw [← h]
            simp [List.append_assoc]
          · intro st' h
            simp at h
        · rw [stepWithResp_handoff_next env cfg sched st resp ref hempty hhand (by omega)]
          constructor
          · intro r hr
            simp at hr
          · intro st' h
            injection h with h
            refine ⟨[mkAssistantMessage st.agent resp]
              ++ batchMessages st.agent resp.toolCalls
                   (executeBatch st.agent st.ctx resp.toolCalls (sched st.turn)), ?_⟩
            rw [← h]
            simp [List.append_assoc]

theorem runLoop_messages_extend (env : AgentRef → Agent)
    (client : CompletionClient) (cfg : RunConfig) (sched : Nat → List Nat) :
    ∀ (fuel : Nat) (st : RunState),
      ∃ tail, (runLoop env client cfg sched fuel st).messages = st.newMsgs ++ tail := by
  intro fuel
  induction fuel with
  | zero =>
      intro st
      exact ⟨[], by simp [runLoop, mkMaxTurnsResult]⟩
  | succ f ih =>
      intro st
      rw [runLoop]
      cases hstep : stepWithResp env cfg sched st (respond client st) with
      | finished r =>
          obtain ⟨t, ht⟩ :=
            (stepWithResp_newMsgs_extend env cfg sched st (respond client st)).1 r hstep
          exact ⟨t, ht⟩
      | next st' =>
          obtain ⟨t1, ht1⟩ :=
            (stepWithResp_newMsgs_extend env cfg sched st (respond client st)).2 st' hstep
          obtain ⟨t2, ht2⟩ := ih st'
          exact ⟨t1 ++ t2, by rw [ht2, ht1, List.append_assoc]⟩

theorem runLoop_agent_constant (env : AgentRef → Agent)
    (client : CompletionClient) (cfg : RunConfig) (sched : Nat → List Nat) :
    ∀ (fuel : Nat) (st : RunState),
      (∀ st2 : RunState, st2.agent = st.agent →
          lastHandoff (executeBatch st2.agent st2.ctx
            (respond client st2).toolCalls (sched st2.turn)) = none) →
      (runLoop env client cfg sched fuel st).finalAgent = st.agent ∧
      ∀ a ∈ turnAgents env client cfg sched fuel st, a = st.agent := by
  intro fuel
  induction fuel with
  | zero =>
      intro st _
      refine ⟨rfl, ?_⟩
      intro a ha
      cases ha
  | succ f ih =>
      intro st Hnh
      by_cases hempty : (respond client st).toolCalls = []
      · rw [runLoop, turnAgents,
          stepWithResp_done env cfg sched st (respond client st) hempty]
        refine ⟨rfl, ?_⟩
        intro a ha
        rcases List.mem_cons.mp ha with h | h
        · exact h
        · cases h
      · have hnone := Hnh st rfl
        rw [runLoop, turnAgents,
          stepWithResp_nohandoff_next env cfg sched st (respond client st)
            hempty hnone]
        have hih := ih
          { agent := st.agent,
            history := st.history ++ [mkAssistantMessage st.agent (respond client st)]
              ++ batchMessages st.agent (respond client st).toolCalls
                   (executeBatch st.agent st.ctx (respond client st).toolCalls
                     (sched st.turn)),
            ctx := mergeDeltas st.ctx
              ((executeBatch st.agent st.ctx (respond client st).toolCalls
                  (sched st.turn)).map (·.contextDelta)),
            newMsgs := st.newMsgs ++ [mkAssistantMessage st.agent (respond client st)]
              ++ batchMessages st.agent (respond client st).toolCalls
                   (executeBatch st.agent st.ctx (respond client st).toolCalls
                     (sched st.turn)),
            handoffs := st.handoffs, turn := st.turn + 1 }
          (fun st2 h2 => Hnh st2 h2)
        refine ⟨hih.1, ?_⟩
        intro a ha
        rcases List.mem_cons.mp ha with h | h
        · exact h
        · exact hih.2 a h

/-- **C4.** When a tool batch's results carry an Agent reference (last in
call order per §4.3 precedence), that Agent becomes the active agent: if the
handoff budget allows the run to continue, the next turn runs under exactly
that Agent with the history extended by the assistant message and the batch's
tool messages, every subsequent turn of the run is issued under that Agent
and the RunResult's final agent is that Agent as long as no later batch
requests another handoff (a later handoff is resolved by the same rule); if
the handoff exhausts the budget, the run terminates at once with that Agent
as the RunResult's final agent.  At the run level the accumulated messages
are only ever extended — never truncated or reordered. -/
theorem c4_handoff_switches_and_preserves_history :
    (∀ (env : AgentRef → Agent) (cfg : RunConfig) (sched : Nat → List Nat)
        (st : RunState) (resp : Resp) (ref : AgentRef),
        resp.toolCalls ≠ [] →
        lastHandoff (executeBatch st.agent st.ctx resp.toolCalls (sched st.turn))
          = some ref →
        st.handoffs + 1 ≤ cfg.maxHandoffs →
        ∃ st', stepWithResp env cfg sched st resp = .next st' ∧
          st'.agent = env ref ∧
          st'.history = st.history ++ [mkAssistantMessage st.agent resp]
            ++ batchMessages st.agent resp.toolCalls
                 (executeBatch st.agent st.ctx resp.toolCalls (sched st.turn)) ∧
          st'.newMsgs = st.newMsgs ++ [mkAssistantMessage st.agent resp]
            ++ batchMessages st.agent resp.toolCalls
                 (executeBatch st.agent st.ctx resp.toolCalls (sched st.turn))) ∧
    (∀ (env : AgentRef → Agent) (client : CompletionClient) (cfg : RunConfig)
        (sched : Nat → List Nat) (st : RunState) (resp : Resp) (ref : AgentRef)
        (fuel : Nat),
        resp.toolCalls ≠ [] →
        lastHandoff (executeBatch st.agent st.ctx resp.toolCalls (sched st.turn))
          = some ref →
        st.handoffs + 1 ≤ cfg.maxHandoffs →
        (∀ st2 : RunState, st2.agent = env ref →
            lastHandoff (executeBatch st2.agent st2.ctx
              (respond client st2).toolCalls (sched st2.turn)) = none) →
        ∃ st', stepWithResp env cfg sched st resp = .next st' ∧
          st'.agent = env ref ∧
          (runLoop env client cfg sched fuel st').finalAgent = env ref ∧
          ∀ a ∈ turnAgents env client cfg sched fuel st', a = env ref) ∧
    (∀ (env : AgentRef → Agent) (cfg : RunConfig) (sched : Nat → List Nat)
        (st : RunState) (resp : Resp) (ref : AgentRef),
        resp.toolCalls ≠ [] →
        lastHandoff (executeBatch st.agent st.ctx resp.toolCalls (sched st.turn))
          = some ref →
        cfg.maxHandoffs < st.handoffs + 1 →
        ∃ r, stepWithResp env cfg sched st resp = .finished r ∧
          r.finalAgent = env ref ∧
          r.termination = .handoffLoopExceeded) ∧
    (∀ (env : AgentRef → Agent) (client : CompletionClient) (cfg : RunConfig)
        (sched : Nat → List Nat) (fuel : Nat) (st : RunState),
        ∃ tail, (runLoop env client cfg sched fuel st).messages
          = st.newMsgs ++ tail) := by
  refine ⟨?_, ?_, ?_, ?_⟩
  · intro env cfg sched st resp ref hcalls href hmax
    exact ⟨_, stepWithResp_handoff_next env cfg sched st resp ref hcalls href hmax,
      rfl, rfl, rfl⟩
  · intro env client cfg sched st resp ref fuel hcalls href hmax Hnh
    refine ⟨_, stepWithResp_handoff_next env cfg sched st resp ref hcalls href hmax,
      rfl, ?_, ?_⟩
    · exact (runLoop_agent_constant env client cfg sched fuel _
        (fun st2 h2 => Hnh st2 h2)).1
    · exact (runLoop_agent_constant env client cfg sched fuel _
        (fun st2 h2 => Hnh st2 h2)).2
  · intro env cfg sched st resp ref hcalls href hmax
    exact ⟨_,
      stepWithResp_handoff_finished env cfg sched st resp ref hcalls href hmax,
      rfl, rfl⟩
  · intro env client cfg sched fuel st
    exact runLoop_messages_extend env client cfg sched fuel st

/-- Witness for C4: a `transfer` batch under agent A hands the conversation
to agent B with the history extended, never truncated; a `transfer_to_c`
batch under agent D makes C the active agent of every one of the three
subsequent turns and the final agent of the run; and a handoff on an
exhausted budget terminates the run at once with the target as final
agent. -/
theorem c4_witness :
    (∃ st', stepWithResp envAB ⟨5, 10⟩ (fun _ => [])
        { agent := agentA, history := [userMsg], ctx := [], newMsgs := [],
          handoffs := 0, turn := 0 }
        { content := "", toolCalls := [transferCall] }
      = .next st' ∧
      st'.agent = envAB "B" ∧
      st'.history = [userMsg]
        ++ [mkAssistantMessage agentA { content := "", toolCalls := [transferCall] }]
        ++ batchMessages agentA [transferCall]
             (executeBatch agentA [] [transferCall] []) ∧
      st'.newMsgs = []
        ++ [mkAssistantMessage agentA { content := "", toolCalls := [transferCall] }]
        ++ batchMessages agentA [transferCall]
             (executeBatch agentA [] [transferCall] [])) ∧
    (∃ st', stepWithResp envAC ⟨5, 10⟩ (fun _ => [])
        { agent := agentD, history := [userMsg], ctx := [], newMsgs := [],
          handoffs := 0, turn := 0 }
        { content := "", toolCalls := [transferCCall] }
      = .next st' ∧
      st'.agent = envAC "C" ∧
      (runLoop envAC transferCClient ⟨5, 10⟩ (fun _ => []) 3 st').finalAgent
        = envAC "C" ∧
      ∀ a ∈ turnAgents envAC transferCClient ⟨5, 10⟩ (fun _ => []) 3 st',
        a = envAC "C") ∧
    (∃ r, stepWithResp envAB ⟨5, 0⟩ (fun _ => [])
        { agent := agentA, history := [userMsg], ctx := [], newMsgs := [],
          handoffs := 0, turn := 0 }
        { content := "", toolCalls := [transferCall] }
      = .finished r ∧
      r.finalAgent = envAB "B" ∧
      r.termination = .handoffLoopExceeded) := by
  refine ⟨?_, ?_, ?_⟩
  · exact c4_handoff_switches_and_preserves_history.1 envAB ⟨5, 10⟩ (fun _ => [])
      { agent := agentA, history := [userMsg], ctx := [], newMsgs := [],
        handoffs := 0, turn := 0 }
      { content := "", toolCalls := [transferCall] } "B"
      (by decide) (by decide) (by decide)
  · exact c4_handoff_switches_and_preserves_history.2.1 envAC transferCClient
      ⟨5, 10⟩ (fun _ => [])
      { agent := agentD, history := [userMsg], ctx := [], newMsgs := [],
        handoffs := 0, turn := 0 }
      { content := "", toolCalls := [transferCCall] } "C" 3
      (by decide) (by decide) (by decide)
      (by intro st2 h2; rw [h2]; rfl)
  · exact c4_handoff_switches_and_preserves_history.2.2.1 envAB ⟨5, 0⟩
      (fun _ => [])
      { agent := agentA, history := [userMsg], ctx := [], newMsgs := [],
        handoffs := 0, turn := 0 }
      { content := "", toolCalls := [transferCall] } "B"
      (by decide) (by decide) (by decide)

/-! ### Stream assembly reconstructs the blocking response -/

theorem foldl_append_eq_joinChunks (l : List String) :
    ∀ s : String, List.foldl (· ++ ·) s l = s ++ joinChunks l := by
  induction l with
  | nil =>
      intro s
      simp [joinChunks, String.append_empty]
  | cons a rest ih =>
      intro s
      rw [List.foldl_cons, ih (s ++ a),
        show joinChunks (a :: rest) = List.foldl (· ++ ·) ("" ++ a) rest from rfl,
        ih ("" ++ a), String.empty_append, String.append_assoc]

theorem joinChunks_cons (c : String) (cs : List String) :
    joinChunks (c :: cs) = c ++ joinChunks cs := by
  rw [show joinChunks (c :: cs) = List.foldl (· ++ ·) ("" ++ c) cs from rfl,
    foldl_append_eq_joinChunks, String.empty_append]

theorem assembleStep_content (cs : List String) :
    ∀ acc : Resp,
      List.foldl assembleStep acc (cs.map .contentDelta)
        = { acc with content := acc.content ++ joinChunks cs } := by
  induction cs with
  | nil =>
      intro acc
      simp [joinChunks, String.append_empty]
  | cons c rest ih =>
      intro acc
      rw [List.map_cons, List.foldl_cons]
      show List.foldl assembleStep { acc with content := acc.content ++ c } _ = _
      rw [ih, joinChunks_cons, String.append_assoc]

theorem assembleStep_tools (ts : List ToolCall) :
    ∀ acc : Resp,
      List.foldl assembleStep acc (ts.map .toolCallDelta)
        = { acc with toolCalls := acc.toolCalls ++ ts } := by
  induction ts with
  | nil =>
      intro acc
      simp
  | cons t rest ih =>
      intro acc
      rw [List.map_cons, List.foldl_cons]
      show List.foldl assembleStep { acc with toolCalls := acc.toolCalls ++ [t] } _ = _
      rw [ih, List.append_assoc, List.singleton_append]

/-- Reassembling a chunked response recovers the response, for every chunker
whose pieces concatenate back to the original content. -/
theorem assembleResp_turnChunks (chunker : String → List String)
    (hch : ∀ s, joinChunks (chunker s) = s) (r : Resp) :
    assembleResp (turnChunks chunker r) = r := by
  rw [assembleResp, turnChunks, List.foldl_append, assembleStep_content,
    assembleStep_tools]
  rw [show ({ content := "", toolCalls := [] } : Resp).content = "" from rfl,
    show ({ content := "", toolCalls := [] } : Resp).toolCalls = [] from rfl]
  rw [String.empty_append, hch, List.nil_append]

theorem turnChunks_no_final (chunker : String → List String) (r : Resp) :
    (turnChunks chunker r).filter StreamChunk.isFinal = [] := by
  rw [turnChunks, List.filter_append]
  have h1 : ∀ x ∈ (chunker r.content).map StreamChunk.contentDelta,
      ¬ StreamChunk.isFinal x = true := by
    intro x hx
    obtain ⟨y, _, rfl⟩ := List.mem_map.mp hx
    simp [StreamChunk.isFinal]
  have h2 : ∀ x ∈ r.toolCalls.map StreamChunk.toolCallDelta,
      ¬ StreamChunk.isFinal x = true := by
    intro x hx
    obtain ⟨y, _, rfl⟩ := List.mem_map.mp hx
    simp [StreamChunk.isFinal]
  rw [List.filter_eq_nil_iff.mpr h1, List.filter_eq_nil_iff.mpr h2]
  rfl

theorem runStreamLoop_final_spec (env : AgentRef → Agent)
    (client : CompletionClient) (cfg : RunConfig) (sched : Nat → List Nat)
    (chunker : String → List String)
    (hch : ∀ s, joinChunks (chunker s) = s) :
    ∀ (fuel : Nat) (st : RunState),
      ((runStreamLoop env client cfg sched chunker fuel st).filter
          StreamChunk.isFinal)
        = [.final (runLoop env client cfg sched fuel st)] ∧
      (runStreamLoop env client cfg sched chunker fuel st).getLast?
        = some (.final (runLoop env client cfg sched fuel st)) := by
  intro fuel
  induction fuel with
  | zero => intro st; exact ⟨rfl, rfl⟩
  | succ f ih =>
      intro st
      rw [runStreamLoop, runLoop, assembleResp_turnChunks chunker hch (respond client st)]
      cases hstep : stepWithResp env cfg sched st (respond client st) with
      | finished r =>
          refine ⟨?_, ?_⟩
          · rw [List.filter_append, turnChunks_no_final]
            rfl
          · rw [List.getLast?_concat]
      | next st' =>
          have hrec := ih st'
          refine ⟨?_, ?_⟩
          · rw [List.filter_append, turnChunks_no_final, hrec.1]
            rfl
          · rw [List.getLast?_append, hrec.2]
            rfl

/-- **C3.** For every deterministic Completion Client (a pure function in
this model) and every faithful chunking of its responses, a streaming run
emits exactly one `{final}` chunk, that chunk is the last element of the
stream (so it follows every content and tool-call delta), and it carries
precisely the RunResult the blocking run over the same agent, history and
context produces. -/
theorem c3_streaming_equals_blocking (env : AgentRef → Agent)
    (client : CompletionClient) (cfg : RunConfig) (sched : Nat → List Nat)
    (chunker : String → List String) (agent : Agent) (hist : List Message)
    (ctx : Ctx) (hch : ∀ s, joinChunks (chunker s) = s) :
    ((runStream env client cfg sched chunker agent hist ctx).filter
        StreamChunk.isFinal)
      = [.final (runBlocking env client cfg sched agent hist ctx)] ∧
    (runStream env client cfg sched chunker agent hist ctx).getLast?
      = some (.final (runBlocking env client cfg sched agent hist ctx)) :=
  runStreamLoop_final_spec env client cfg sched chunker hch cfg.maxTurns
    { agent := agent, history := hist, ctx := ctx, newMsgs := [],
      handoffs := 0, turn := 0 }

/-- Witness for C3 at the two-turn stub client: the stream of the
tool-call-then-answer conversation has exactly one final chunk, it comes
last, and it carries the blocking run's RunResult. -/
theorem c3_witness :
    ((runStream envAB twoTurnClient ⟨5, 10⟩ (fun _ => [0, 1]) (fun s => [s])
        parAgent [userMsg] []).filter StreamChunk.isFinal)
      = [.final (runBlocking envAB twoTurnClient ⟨5, 10⟩ (fun _ => [0, 1])
          parAgent [userMsg] [])] ∧
    (runStream envAB twoTurnClient ⟨5, 10⟩ (fun _ => [0, 1]) (fun s => [s])
        parAgent [userMsg] []).getLast?
      = some (.final (runBlocking envAB twoTurnClient ⟨5, 10⟩ (fun _ => [0, 1])
          parAgent [userMsg] [])) :=
  c3_streaming_equals_blocking envAB twoTurnClient ⟨5, 10⟩ (fun _ => [0, 1])
    (fun s => [s]) parAgent [userMsg] []
    (fun s => by simp [joinChunks])

/-! ### Handoff loop protection -/

theorem runLoop_always_handoff (env : AgentRef → Agent)
    (client : CompletionClient) (cfg : RunConfig) (sched : Nat → List Nat)
    (a0 : Agent)
    (H : ∀ st : RunState, reachableFrom env a0 st.agent →
        (respond client st).toolCalls ≠ [] ∧
        (lastHandoff (executeBatch st.agent st.ctx (respond client st).toolCalls
            (sched st.turn))).isSome = true) :
    ∀ (fuel : Nat) (st : RunState), reachableFrom env a0 st.agent →
      st.handoffs ≤ cfg.maxHandoffs →
      cfg.maxHandoffs - st.handoffs < fuel →
      (runLoop env client cfg sched fuel st).termination = .handoffLoopExceeded ∧
      (runLoop env client cfg sched fuel st).handoffs = cfg.maxHandoffs + 1 := by
  intro fuel
  induction fuel with
  | zero =>
      intro st _ _ hlt
      omega
  | succ f ih =>
      intro st hre hle hlt
      obtain ⟨hcalls, hhand⟩ := H st hre
      obtain ⟨ref, href⟩ := Option.isSome_iff_exists.mp hhand
      rw [runLoop]
      by_cases hmax : cfg.maxHandoffs < st.handoffs + 1
      · rw [stepWithResp_handoff_finished env cfg sched st (respond client st) ref
          hcalls href hmax]
        exact ⟨rfl, by show st.handoffs + 1 = cfg.maxHandoffs + 1; omega⟩
      · rw [stepWithResp_handoff_next env cfg sched st (respond client st) ref
          hcalls href (by omega)]
        refine ih _ (Or.inr ⟨ref, rfl⟩) ?_ ?_
        · show st.handoffs + 1 ≤ cfg.maxHandoffs
          omega
        · show cfg.maxHandoffs - (st.handoffs + 1) < f
          omega

/-- **C8.** For every run whose every turn (under any reachable active Agent)
produces a tool batch that triggers a handoff, the run terminates with the
fatal `HandoffLoopExceeded` condition exactly when the number of handoffs
first exceeds the configured maximum — the final handoff count is
`maxHandoffs + 1`, so no earlier turn terminated the run and no later turn
ran — provided the turn budget is large enough to reach that point. -/
theorem c8_handoff_loop_exceeded (env : AgentRef → Agent)
    (client : CompletionClient) (cfg : RunConfig) (sched : Nat → List Nat)
    (a0 : Agent) (hist : List Message) (ctx : Ctx)
    (H : ∀ st : RunState, reachableFrom env a0 st.agent →
        (respond client st).toolCalls ≠ [] ∧
        (lastHandoff (executeBatch st.agent st.ctx (respond client st).toolCalls
            (sched st.turn))).isSome = true)
    (hturns : cfg.maxHandoffs < cfg.maxTurns) :
    (runBlocking env client cfg sched a0 hist ctx).termination
      = .handoffLoopExceeded ∧
    (runBlocking env client cfg sched a0 hist ctx).handoffs
      = cfg.maxHandoffs + 1 :=
  runLoop_always_handoff env client cfg sched a0 H cfg.maxTurns
    { agent := a0, history := hist, ctx := ctx, newMsgs := [], handoffs := 0,
      turn := 0 }
    (Or.inl rfl) (Nat.zero_le _) (by omega)

/-- Witness for C8: agents A and B whose only tool always transfers to B,
under a client that always requests it, with `maxHandoffs = 2` and
`maxTurns = 5`: the run ends in `HandoffLoopExceeded` after exactly three
handoffs (the first to exceed the maximum), not earlier. -/
theorem c8_witness :
    (runBlocking envAB transferClient ⟨5, 2⟩ (fun _ => []) agentA [userMsg]
        []).termination = .handoffLoopExceeded ∧
    (runBlocking envAB transferClient ⟨5, 2⟩ (fun _ => []) agentA [userMsg]
        []).handoffs = 3 := by
  have H : ∀ st : RunState, reachableFrom envAB agentA st.agent →
      (respond transferClient st).toolCalls ≠ [] ∧
      (lastHandoff (executeBatch st.agent st.ctx
          (respond transferClient st).toolCalls ((fun _ => []) st.turn))).isSome
        = true := by
    intro st hre
    have hagent : st.agent = agentA ∨ st.agent = agentB := by
      rcases hre with h | ⟨r, h⟩
      · exact Or.inl h
      · rw [h]
        unfold envAB
        by_cases hr : r = "B"
        · rw [if_pos hr]
          exact Or.inr rfl
        · rw [if_neg hr]
          exact Or.inl rfl
    constructor
    · intro hcon
      cases hcon
    · rcases hagent with h | h <;> rw [h] <;> rfl
  exact c8_handoff_loop_exceeded envAB transferClient ⟨5, 2⟩ (fun _ => [])
    agentA [userMsg] [] H (by decide)

end SwarmSpec
